import Mathlib

/-
Shallow embedding of the soledad client sync core:
  - src/client/src/leap/soledad/client/http_target/send.py   (HTTPDocSender)
  - src/client/src/leap/soledad/client/http_target/api.py    (SyncTargetAPI)
  - src/client/src/leap/soledad/client/_http.py              (PinnedTokenAgent)
  - src/__init__.py                                          (Soledad secret handling)

Python None and JSON null are modelled by Option / a JSON value type; machine
integers do not occur (Python ints are unbounded, modelled as Int / Nat).
Deferred results (twisted Deferreds) are modelled by plain values: each
yield point is sequential in the embedded functions, matching the
cooperative single-session scheduling of the source.
-/

namespace Soledad

/-- Parsed JSON values, the domain of decoded response bodies.  Python's
json.loads maps JSON null to Python None; both are jnull here. -/
inductive JVal where
  | jnull
  | jbool (b : Bool)
  | jnum (n : Int)
  | jstr (s : String)
  | jarr (elems : List JVal)
  | jobj (fields : List (String × JVal))

/-- Python dict lookup on a decoded JSON object (first binding wins;
decoded JSON objects have unique keys). -/
def jlookup (fields : List (String × JVal)) (key : String) : Option JVal :=
  (fields.find? (fun p => p.1 = key)).map (fun p => p.2)

/-- A u1db document as used by send.py: doc_id, rev, and content.
A document is a tombstone exactly when its content is gone. -/
structure Doc where
  doc_id : String
  rev : String
  content : Option String
deriving DecidableEq

/-- Embeds doc.is_tombstone() of the u1db Document class. -/
def Doc.is_tombstone (d : Doc) : Bool := d.content.isNone

/-- One element of docs_by_generation: a (doc, gen, trans_id) tuple. -/
abbrev SyncItem := Doc × Int × String

/-- The staged-store key of a sync item: (doc_id, rev) of its document. -/
def keyOf (it : SyncItem) : String × String := (it.1.doc_id, it.1.rev)

/-- The ambient state of an HTTPDocSender object, as read by the send path:
self._url, self._ensure_callback is not None, self._sync_enc_pool is not None
(the _defer_encryption property of api.py), self._crypto.encrypt_doc, and the
lookup self._sync_enc_pool.get_encrypted_doc (returning the staged ciphertext
for a (doc_id, rev), or nothing when the sync db has no row for it). -/
structure SenderEnv where
  url : String
  ensure : Bool
  defer_encryption : Bool
  encrypt_doc : Doc → String
  staged : String → String → Option String

/-- Embeds HTTPDocSender._encrypt_doc of send.py: tombstones carry no
content; without deferred encryption the document is encrypted inline;
otherwise the staged ciphertext is used when present and inline encryption
is forced when the sync db returned nothing. -/
def _encrypt_doc (env : SenderEnv) (doc : Doc) : Option String :=
  if doc.is_tombstone then
    none
  else if !env.defer_encryption then
    some (env.encrypt_doc doc)
  else
    match env.staged doc.doc_id doc.rev with
    | none => some (env.encrypt_doc doc)
    | some doc_json => some doc_json

/-- A twisted failure reaching the errback of _http_request: either a
twisted.web.error.Error (an HTTP error, with status and message) or any
other transport failure. -/
inductive Failure where
  | webError (status : Nat) (message : String)
  | other (description : String)
deriving DecidableEq

/-- Embeds failure.getErrorMessage(): for twisted.web.error.Error the
string form is the status followed by the message. -/
def Failure.getErrorMessage : Failure → String
  | .webError status message => toString status ++ " " ++ message
  | .other description => description

/-- What a failed request surfaces as after the errback ran: either the
distinguished InvalidAuthTokenError or the original failure unchanged. -/
inductive SurfacedFailure where
  | invalidAuthToken
  | transport (f : Failure)
deriving DecidableEq

/-- Embeds _unauth_to_invalid_token_error of api.py: failure.trap(Error)
re-raises any non-Error failure unchanged; an Error whose message is
"401 Unauthorized" raises InvalidAuthTokenError; any other Error is
returned unchanged. -/
def _unauth_to_invalid_token_error (f : Failure) : SurfacedFailure :=
  match f with
  | .webError s m =>
      if (Failure.webError s m).getErrorMessage = "401 Unauthorized" then
        SurfacedFailure.invalidAuthToken
      else
        SurfacedFailure.transport f
  | .other _ => SurfacedFailure.transport f

/-- Embeds the error path of SyncTargetAPI._http_request: the deferred's
errback maps every failure through _unauth_to_invalid_token_error, while a
successful response body is passed through. -/
def _http_request_result {α : Type} (response : Except Failure α) :
    Except SurfacedFailure α :=
  match response with
  | .ok a => .ok a
  | .error f => .error (_unauth_to_invalid_token_error f)

/-- Embeds the reconciliation tail of SyncTargetAPI.sync_exchange
(api.py): after the send and receive phases, the send result wins exactly
when it is not None and numerically greater than the receive snapshot. -/
def sync_exchange_reconcile (gen_after_send : Option Int)
    (trans_id_after_send : Option String) (cur_target_gen : Int)
    (cur_target_trans_id : Option String) : Int × Option String :=
  match gen_after_send with
  | some g =>
      if g > cur_target_gen then (g, trans_id_after_send)
      else (cur_target_gen, cur_target_trans_id)
  | none => (cur_target_gen, cur_target_trans_id)

/-! Pinned token-authenticated transport, from _http.py.  Python 2 byte
strings are modelled as Lean strings whose characters are the bytes
(credentials are ASCII), so base64.b64encode is embedded over the list of
character codes. -/

/-- The base64 alphabet used by base64.b64encode. -/
def base64Alphabet : String :=
  "ABCDEFGHIJKLMNOPQRSTUVWXYZabcdefghijklmnopqrstuvwxyz0123456789+/"

/-- The base64 digit for a 6-bit value. -/
def b64Char (n : Nat) : Char := base64Alphabet.toList.getD n 'A'

/-- Standard base64 of a byte list, with = padding, as produced by
base64.b64encode. -/
def base64EncodeBytes : List Nat → List Char
  | [] => []
  | [a] => [b64Char (a / 4), b64Char (a % 4 * 16), '=', '=']
  | [a, b] => [b64Char (a / 4), b64Char (a % 4 * 16 + b / 16),
      b64Char (b % 16 * 4), '=']
  | a :: b :: c :: rest =>
      b64Char (a / 4) :: b64Char (a % 4 * 16 + b / 16) ::
        b64Char (b % 16 * 4 + c / 64) :: b64Char (c % 64) ::
          base64EncodeBytes rest

/-- Embeds base64.b64encode on a Python 2 byte string. -/
def b64encode (s : String) : String :=
  String.mk (base64EncodeBytes (s.toList.map Char.toNat))

/-- The state of a PinnedTokenAgent (_http.py): the uuid, the current
bearer token, and the cached encoded Authorization value.  The TLS pinning
of the underlying Agent is connection-level and not modelled. -/
structure PinnedTokenAgent where
  uuid : String
  token : Option String
  creds : Option String

/-- Embeds PinnedTokenAgent._encoded_creds for the token currently stored:
the value is Token followed by base64 of uuid:token. -/
def _encoded_creds (uuid token : String) : String :=
  "Token " ++ b64encode (uuid ++ ":" ++ token)

/-- Embeds PinnedTokenAgent.set_token: stores the token and recomputes the
cached encoded credential. -/
def PinnedTokenAgent.set_token (a : PinnedTokenAgent) (token : String) :
    PinnedTokenAgent :=
  { a with token := some token,
           creds := some (_encoded_creds a.uuid token) }

/-- Embeds PinnedTokenAgent.__init__: uuid stored, token and creds start
as None, then set_token runs with the given token. -/
def PinnedTokenAgent.init (uuid token : String) : PinnedTokenAgent :=
  PinnedTokenAgent.set_token { uuid := uuid, token := none, creds := none }
    token

/-- An HTTP request as handed to the underlying twisted Agent: method,
uri, and the raw header list after the agent added its own. -/
structure AgentRequest where
  method : String
  uri : String
  headers : List (String × String)

/-- Embeds PinnedTokenAgent.request: caller headers (an empty header set
when none were supplied) with the Authorization raw header appended, then
the request is performed by the underlying Agent. -/
def PinnedTokenAgent.request (a : PinnedTokenAgent) (method uri : String)
    (headers : Option (List (String × String))) : AgentRequest :=
  let hs := match headers with
    | none => []
    | some h => h
  { method := method, uri := uri,
    headers := hs ++ [("Authorization",
      match a.creds with
      | some c => c
      | none => "None")] }

/-! Credential header handling of SyncTargetAPI (api.py). -/

/-- The credential-relevant state of a SyncTargetAPI object: the
_auth_header dict (None until set_creds ran). -/
structure TargetState where
  auth_header : Option (List (String × List String))

/-- Embeds SyncTargetAPI.set_creds: stores an Authorization header dict
computed from the uuid and token of the creds dictionary. -/
def set_creds (s : TargetState) (uuid token : String) : TargetState :=
  let b64_token := b64encode (uuid ++ ":" ++ token)
  { s with auth_header := some [("Authorization", ["Token " ++ b64_token])] }

/-- Embeds the _base_header property: a copy of _auth_header when set,
else an empty dict.  The source calls dict.copy, so the value handed out
is fresh and later updates of it never alias the stored _auth_header. -/
def _base_header (s : TargetState) : List (String × List String) :=
  match s.auth_header with
  | some h => h
  | none => []

/-- Python dict.update with a single key: replaces the binding when the
key is present, appends it otherwise. -/
def dict_update (d : List (String × List String)) (key : String)
    (v : List String) : List (String × List String) :=
  if d.any (fun p => p.1 == key) then
    d.map (fun p => if p.1 == key then (key, v) else p)
  else
    d ++ [(key, v)]

/-- Embeds the header computation of SyncTargetAPI._http_request: caller
headers default to _base_header, and a content type is written into that
(fresh) dict. -/
def _http_request_headers (s : TargetState)
    (headers : Option (List (String × List String)))
    (content_type : Option String) : List (String × List String) :=
  let hs := match headers with
    | some h => h
    | none => _base_header s
  match content_type with
  | some ct => dict_update hs "content-type" [ct]
  | none => hs

/-- One _http_request call as a state transformer: because _base_header
copies the stored dict, the update of the local headers dict leaves the
object state unchanged; the issued header dict is returned alongside. -/
def _http_request_step (s : TargetState) (content_type : Option String) :
    TargetState × List (String × List String) :=
  (s, _http_request_headers s none content_type)

/-- Runs a sequence of _http_request calls (one content type each),
threading the object state. -/
def run_requests (s : TargetState) : List (Option String) → TargetState
  | [] => s
  | ct :: rest => run_requests (_http_request_step s ct).1 rest

/-! The chunked document sender, from send.py. -/

/-- One batch entry, as given to RequestBody.insert_info by
_entries_from_docs: document id and rev, the resolved ciphertext (None for
tombstones), the document's generation and transaction id, the total
document count and the 1-based position. -/
structure SyncEntry where
  id : String
  rev : String
  content : Option String
  gen : Int
  trans_id : String
  number_of_docs : Nat
  doc_idx : Nat
deriving DecidableEq

/-- Modelled from the spec: RequestBody lives in http_target/support.py,
which is not under src/.  Per section 4.4 the batch body starts with the
session metadata (last_known_generation, last_known_trans_id, sync_id,
ensure) and accumulates one entry per document; insert_info appends an
entry, and remove pops entries off the front of the body into a chunk.
The wire serialization of body and chunks is specified as a format only
and is not modelled. -/
structure RequestBody where
  last_known_generation : Int
  last_known_trans_id : String
  sync_id : String
  ensure : Bool
  entries : List SyncEntry

/-- Modelled from the spec: RequestBody.insert_info appends one entry to
the body, in traversal order. -/
def insert_info (body : RequestBody) (e : SyncEntry) : RequestBody :=
  { body with entries := body.entries ++ [e] }

/-- Modelled from the spec: RequestBody.remove drains the first n entries
of the body into a chunk and leaves the rest. -/
def RequestBody.remove (body : RequestBody) (n : Nat) :
    List SyncEntry × RequestBody :=
  (body.entries.take n, { body with entries := body.entries.drop n })

/-- The number of entries _send_docs drains per request: the source calls
entries.remove(1). -/
def chunk_size : Nat := 1

/-- The loop of HTTPDocSender._entries_from_docs: enumerate the
(doc, gen, trans_id) tuples from 1, resolve each document's encrypted
payload, and append one entry per document to the body. -/
def entriesLoop (env : SenderEnv) (number_of_docs : Nat) :
    RequestBody → Nat → List SyncItem → RequestBody
  | body, _, [] => body
  | body, idx, (doc, gen, trans_id) :: rest =>
      entriesLoop env number_of_docs
        (insert_info body
          ⟨doc.doc_id, doc.rev, _encrypt_doc env doc, gen, trans_id,
            number_of_docs, idx⟩)
        (idx + 1) rest

/-- Embeds HTTPDocSender._entries_from_docs of send.py. -/
def _entries_from_docs (env : SenderEnv) (initial_body : RequestBody)
    (docs_by_generation : List SyncItem) : RequestBody :=
  entriesLoop env docs_by_generation.length initial_body 1
    docs_by_generation

/-- Embeds HTTPDocSender._delete_sent of send.py: the staged-store key of
docs_by_generation[idx - 1], handed to delete_encrypted_doc.  Every call
in the send loop has 1 <= idx <= len(docs_by_generation), so Python's
negative indexing is not modelled. -/
def _delete_sent (idx : Nat) (docs_by_generation : List SyncItem) :
    Option (String × String) :=
  (docs_by_generation[idx - 1]?).map keyOf

/-- One HTTP request issued by the send loop.  The serialized body also
carries the session metadata of the RequestBody; only the drained chunk
entries are recorded here. -/
structure Request where
  url : String
  method : String
  chunk : List SyncEntry
  content_type : String
deriving DecidableEq

/-- The request a chunk of one entry turns into. -/
def chunkReq (url : String) (e : SyncEntry) : Request :=
  ⟨url, "POST", [e], "application/x-soledad-sync-put"⟩

/-- The observable side effects of one _send_docs call: the requests it
issued in order, the staged entries it deleted in order, and the progress
messages it emitted in order. -/
structure SendTrace where
  requests : List Request
  deleted : List (String × String)
  events : List String
deriving DecidableEq

/-- The trace before anything happened. -/
def emptyTrace : SendTrace := ⟨[], [], []⟩

/-- The progress message of _emit_send_status: sent count over total. -/
def statusMsg (idx total : Nat) : String :=
  toString idx ++ "/" ++ toString total

/-- How a _send_docs call can fail: a chunk request failed (after the
errback of _http_request ran), the staged-delete indexed outside the
document list, the loop produced no response to parse, or the final
response did not have the expected single-element-array-of-object
shape. -/
inductive SendError where
  | http (chunk : Nat) (f : SurfacedFailure)
  | deleteIndex
  | noResult
  | badResponse
deriving DecidableEq

/-- The while loop of _send_docs: while entries remain, drain one entry
(entries.remove(1), i.e. head and tail), POST it, and on success compute
idx = total - len(entries), delete the staged entry of document idx when
deferred encryption is on, and emit the progress event.  The server is an
oracle giving the decoded response of the k-th request issued (chunk k's
request is only sent after chunk k-1's response arrived); its failures run
through the errback of _http_request.  The value returned is the decoded
body of the last response, kept in result by the source. -/
def sendLoop (server : Nat → Except Failure JVal) (docs : List SyncItem)
    (url : String) (total : Nat) (defer_enc : Bool) :
    List SyncEntry → Nat → SendTrace → SendTrace × Except SendError JVal
  | [], _, tr => (tr, .error .noResult)
  | e :: rest, k, tr =>
    let tr1 : SendTrace :=
      { tr with requests := tr.requests ++ [chunkReq url e] }
    match _http_request_result (server k) with
    | .error f => (tr1, .error (.http k f))
    | .ok result =>
      let idx := total - rest.length
      if defer_enc then
        match _delete_sent idx docs with
        | none => (tr1, .error .deleteIndex)
        | some key =>
          let tr2 : SendTrace :=
            { tr1 with deleted := tr1.deleted ++ [key],
                       events := tr1.events ++ [statusMsg idx total] }
          match rest with
          | [] => (tr2, .ok result)
          | _ :: _ =>
              sendLoop server docs url total defer_enc rest (k + 1) tr2
      else
        let tr2 : SendTrace :=
          { tr1 with events := tr1.events ++ [statusMsg idx total] }
        match rest with
        | [] => (tr2, .ok result)
        | _ :: _ =>
            sendLoop server docs url total defer_enc rest (k + 1) tr2

/-- Embeds HTTPDocSender._send_docs of send.py: an empty document list
returns [None, None] at once; otherwise the metadata body is built, one
entry per document is appended, the chunk loop runs, and the last chunk's
decoded response (a JSON array whose first element carries new_generation
and new_transaction_id) gives the returned pair. -/
def _send_docs (server : Nat → Except Failure JVal) (env : SenderEnv)
    (docs_by_generation : List SyncItem) (last_known_generation : Int)
    (last_known_trans_id : String) (sync_id : String) :
    SendTrace × Except SendError (JVal × JVal) :=
  match docs_by_generation with
  | [] => (emptyTrace, .ok (JVal.jnull, JVal.jnull))
  | _ :: _ =>
    let metadata : RequestBody :=
      ⟨last_known_generation, last_known_trans_id, sync_id, env.ensure, []⟩
    let total := docs_by_generation.length
    let body := _entries_from_docs env metadata docs_by_generation
    match sendLoop server docs_by_generation env.url total
        env.defer_encryption body.entries 0 emptyTrace with
    | (tr, .error e) => (tr, .error e)
    | (tr, .ok result) =>
      match result with
      | .jarr (first :: _) =>
        match first with
        | .jobj fields =>
          match jlookup fields "new_generation",
              jlookup fields "new_transaction_id" with
          | some g, some t => (tr, .ok (g, t))
          | some _, none => (tr, .error .badResponse)
          | none, _ => (tr, .error .badResponse)
        | _ => (tr, .error .badResponse)
      | _ => (tr, .error .badResponse)

/-! Secret loading, from src/__init__.py. -/

/-- Why opening the persisted secret file can fail. -/
inductive FileReadError where
  | missing
  | unreadable

/-- Modelled from the spec: GPGWrapper (soledad.util) is not under src/;
per section 4.1 its decrypt fails on wrong key or corrupted input and
otherwise returns the plaintext. -/
inductive DecryptError where
  | wrongKey
  | corrupted

/-- The failure surfaced by _load_secret: the IOError it raises for a file
problem, or the decryption failure propagating out of it uncaught. -/
inductive SecretLoadError where
  | ioError (msg : String)
  | decryptError (e : DecryptError)

/-- Embeds Soledad.SECRET_PATH: PREFIX derived from HOME plus the fixed
secret file name. -/
def SECRET_PATH (home : String) : String :=
  home ++ "/.config/leap/soledad/secret.gpg"

/-- Embeds Soledad._load_secret: reading the secret file (any IOError is
re-raised with a fixed message), then gpg decryption of its contents,
whose failure propagates uncaught. -/
def _load_secret (home : String) (file : Except FileReadError String)
    (decrypt : String → Except DecryptError String) :
    Except SecretLoadError String :=
  match file with
  | .error _ =>
      .error (.ioError
        ("Failed to open secret file " ++ SECRET_PATH home ++ "."))
  | .ok contents =>
      match decrypt contents with
      | .ok secret => .ok secret
      | .error e => .error (.decryptError e)

end Soledad

namespace Soledad

/-- C5: for a non-tombstone document, with deferred encryption enabled and
no staged ciphertext for (doc_id, rev), _encrypt_doc falls back to
synchronous inline encryption of the document. -/
theorem encrypt_doc_staging_miss_falls_back_to_inline (env : SenderEnv)
    (d : Doc) (ht : d.is_tombstone = false)
    (hdef : env.defer_encryption = true)
    (hmiss : env.staged d.doc_id d.rev = none) :
    _encrypt_doc env d = some (env.encrypt_doc d) := by
  unfold _encrypt_doc
  rw [ht, hdef, hmiss]
  simp

/-- Witness for C5 at a concrete environment and document. -/
theorem encrypt_doc_staging_miss_falls_back_to_inline_witness :
    _encrypt_doc
      ⟨"u", true, true, (fun d => d.doc_id ++ "-enc"), (fun _ _ => none)⟩
      ⟨"d1", "r1", some "body"⟩ = some "d1-enc" :=
  encrypt_doc_staging_miss_falls_back_to_inline
    ⟨"u", true, true, (fun d => d.doc_id ++ "-enc"), (fun _ _ => none)⟩
    ⟨"d1", "r1", some "body"⟩ (by decide) rfl rfl

/-- C2: if the send phase produced a generation and it exceeds the receive
snapshot, sync_exchange returns the send phase's generation and transaction
id; if the send phase produced None, the receive snapshot is returned
unchanged. -/
theorem sync_exchange_reconcile_spec (g cg : Int) (t ct : Option String)
    (hgt : g > cg) :
    sync_exchange_reconcile (some g) t cg ct = (g, t) ∧
    sync_exchange_reconcile none t cg ct = (cg, ct) := by
  constructor
  · simp only [sync_exchange_reconcile]
    rw [if_pos hgt]
  · rfl

/-- Witness for C2 at gen_after_send = 5, cur_target_gen = 3. -/
theorem sync_exchange_reconcile_spec_witness :
    sync_exchange_reconcile (some 5) (some "tid-send") 3 (some "tid-recv") =
      (5, some "tid-send") ∧
    sync_exchange_reconcile none (some "tid-send") 3 (some "tid-recv") =
      (3, some "tid-recv") :=
  sync_exchange_reconcile_spec 5 3 (some "tid-send") (some "tid-recv")
    (by decide)

/-- C4: a failed request surfaces as InvalidAuthTokenError exactly when its
failure is an HTTP error whose message reads "401 Unauthorized"; every
other failure is propagated unchanged as a transport failure. -/
theorem http_request_unauth_mapping (r : Except Failure String)
    (f : Failure) (hr : r = .error f) :
    (_http_request_result r = .error SurfacedFailure.invalidAuthToken ↔
      (∃ s m, f = Failure.webError s m) ∧
        f.getErrorMessage = "401 Unauthorized") ∧
    (¬ ((∃ s m, f = Failure.webError s m) ∧
          f.getErrorMessage = "401 Unauthorized") →
      _http_request_result r = .error (SurfacedFailure.transport f)) := by
  subst hr
  constructor
  · constructor
    · intro h
      cases f with
      | webError s m =>
          constructor
          · exact ⟨s, m, rfl⟩
          · by_contra hne
            simp only [_http_request_result, _unauth_to_invalid_token_error,
              if_neg hne] at h
            exact SurfacedFailure.noConfusion (Except.error.inj h)
      | other d =>
          simp only [_http_request_result,
            _unauth_to_invalid_token_error] at h
          exact SurfacedFailure.noConfusion (Except.error.inj h)
    · rintro ⟨⟨s, m, hf⟩, hmsg⟩
      subst hf
      simp only [_http_request_result, _unauth_to_invalid_token_error,
        if_pos hmsg]
  · intro hne
    cases f with
    | webError s m =>
        have hmsg : ¬ (Failure.webError s m).getErrorMessage =
            "401 Unauthorized" := by
          intro h
          exact hne ⟨⟨s, m, rfl⟩, h⟩
        simp only [_http_request_result, _unauth_to_invalid_token_error,
          if_neg hmsg]
    | other d => rfl

/-- Witness for C4: a web error reading "401 Unauthorized" maps to
InvalidAuthTokenError, and a web error with another message passes through
unchanged. -/
theorem http_request_unauth_mapping_witness :
    _http_request_result (Except.error (Failure.webError 401 "Unauthorized")
      : Except Failure String) =
      Except.error SurfacedFailure.invalidAuthToken ∧
    _http_request_result (Except.error (Failure.webError 401 "Nope")
      : Except Failure String) =
      Except.error (SurfacedFailure.transport (Failure.webError 401 "Nope")) := by
  constructor
  · exact (http_request_unauth_mapping
      (Except.error (Failure.webError 401 "Unauthorized"))
      (Failure.webError 401 "Unauthorized") rfl).1.mpr
      ⟨⟨401, "Unauthorized", rfl⟩, by decide⟩
  · exact (http_request_unauth_mapping
      (Except.error (Failure.webError 401 "Nope"))
      (Failure.webError 401 "Nope") rfl).2
      (by rintro ⟨⟨s, m, hf⟩, hmsg⟩; cases hf; exact absurd hmsg (by decide))

/-- C8: a request issued after set_token carries an Authorization header
whose value is Token followed by base64 of uuid:token for the new token,
and a freshly constructed agent behaves the same for its initial token. -/
theorem pinned_agent_authorization_header (a : PinnedTokenAgent)
    (uu tt t method uri : String)
    (hdrs : Option (List (String × String))) :
    ((a.set_token t).request method uri hdrs).headers =
      (match hdrs with
        | none => []
        | some h => h) ++
        [("Authorization", "Token " ++ b64encode (a.uuid ++ ":" ++ t))] ∧
    ((PinnedTokenAgent.init uu tt).request method uri hdrs).headers =
      (match hdrs with
        | none => []
        | some h => h) ++
        [("Authorization", "Token " ++ b64encode (uu ++ ":" ++ tt))] := by
  constructor
  · rfl
  · rfl

/-- Helper: an _http_request step never changes the object state, so any
run of requests is the identity on it. -/
theorem run_requests_id (cts : List (Option String)) (s : TargetState) :
    run_requests s cts = s := by
  induction cts with
  | nil => rfl
  | cons ct rest ih => exact ih

/-- C10: issuing any number of requests with any content types leaves the
stored credential state unchanged, and a later request still sends exactly
the Authorization header set by set_creds plus only its own content
type. -/
theorem base_header_no_content_type_leak (s0 : TargetState)
    (uuid token : String) (cts : List (Option String)) (ct : String) :
    run_requests (set_creds s0 uuid token) cts = set_creds s0 uuid token ∧
    _http_request_headers (run_requests (set_creds s0 uuid token) cts)
        none (some ct) =
      [("Authorization", ["Token " ++ b64encode (uuid ++ ":" ++ token)]),
       ("content-type", [ct])] := by
  refine ⟨run_requests_id cts _, ?_⟩
  rw [run_requests_id cts _]
  simp [_http_request_headers, _base_header, set_creds, dict_update]

/-- C9: loading the secret fails whenever the persisted file is missing or
unreadable, fails whenever its contents do not decrypt, and on success
yields exactly the decrypted secret string. -/
theorem load_secret_spec (home : String)
    (decrypt : String → Except DecryptError String) :
    (∀ e : FileReadError,
      _load_secret home (.error e) decrypt =
        .error (.ioError
          ("Failed to open secret file " ++ SECRET_PATH home ++ "."))) ∧
    (∀ c e, decrypt c = .error e →
      _load_secret home (.ok c) decrypt = .error (.decryptError e)) ∧
    (∀ c s, decrypt c = .ok s →
      _load_secret home (.ok c) decrypt = .ok s) := by
  refine ⟨fun e => rfl, fun c e h => ?_, fun c s h => ?_⟩
  · simp only [_load_secret, h]
  · simp only [_load_secret, h]

/-- Witness for C9 at a concrete decrypt function: a missing file fails,
contents that do not decrypt fail, and decryptable contents yield the
secret. -/
theorem load_secret_spec_witness :
    _load_secret "/home/u" (.error FileReadError.missing)
        (fun c => if c = "armored" then .ok "s3cret"
          else .error DecryptError.corrupted) =
      .error (.ioError
        ("Failed to open secret file " ++ SECRET_PATH "/home/u" ++ ".")) ∧
    _load_secret "/home/u" (.ok "garbage")
        (fun c => if c = "armored" then .ok "s3cret"
          else .error DecryptError.corrupted) =
      .error (.decryptError DecryptError.corrupted) ∧
    _load_secret "/home/u" (.ok "armored")
        (fun c => if c = "armored" then .ok "s3cret"
          else .error DecryptError.corrupted) = .ok "s3cret" :=
  ⟨(load_secret_spec "/home/u" _).1 FileReadError.missing,
   (load_secret_spec "/home/u" _).2.1 "garbage" DecryptError.corrupted
     (by simp),
   (load_secret_spec "/home/u" _).2.2 "armored" "s3cret" (by simp)⟩

/-- Helper: the entries loop only ever appends to the body. -/
theorem entriesLoop_entries_app (env : SenderEnv) (n : Nat) :
    ∀ (docs : List SyncItem) (body : RequestBody) (idx : Nat),
      ∃ tail, (entriesLoop env n body idx docs).entries =
        body.entries ++ tail := by
  intro docs
  induction docs with
  | nil => exact fun body idx => ⟨[], (List.append_nil _).symm⟩
  | cons item rest ih =>
      intro body idx
      obtain ⟨doc, gen, trans_id⟩ := item
      obtain ⟨tail, htail⟩ := ih (insert_info body
        ⟨doc.doc_id, doc.rev, _encrypt_doc env doc, gen, trans_id, n, idx⟩)
        (idx + 1)
      refine ⟨⟨doc.doc_id, doc.rev, _encrypt_doc env doc, gen, trans_id,
        n, idx⟩ :: tail, ?_⟩
      rw [show entriesLoop env n body idx ((doc, gen, trans_id) :: rest) =
        entriesLoop env n (insert_info body
          ⟨doc.doc_id, doc.rev, _encrypt_doc env doc, gen, trans_id,
            n, idx⟩) (idx + 1) rest from rfl, htail, insert_info,
        List.append_assoc]
      rfl

/-- Helper: the entries loop adds exactly one entry per document. -/
theorem entriesLoop_length (env : SenderEnv) (n : Nat) :
    ∀ (docs : List SyncItem) (body : RequestBody) (idx : Nat),
      (entriesLoop env n body idx docs).entries.length =
        body.entries.length + docs.length := by
  intro docs
  induction docs with
  | nil => intro body idx; rfl
  | cons item rest ih =>
      intro body idx
      obtain ⟨doc, gen, trans_id⟩ := item
      rw [show entriesLoop env n body idx ((doc, gen, trans_id) :: rest) =
        entriesLoop env n (insert_info body
          ⟨doc.doc_id, doc.rev, _encrypt_doc env doc, gen, trans_id,
            n, idx⟩) (idx + 1) rest from rfl, ih]
      simp [insert_info]
      omega

/-- Helper: the entry at offset i past the initial body records the
document at position i with 1-based index idx + i. -/
theorem entriesLoop_getElem (env : SenderEnv) (n : Nat) :
    ∀ (docs : List SyncItem) (body : RequestBody) (idx i : Nat)
      (d : Doc) (g : Int) (t : String),
      docs[i]? = some (d, g, t) →
      (entriesLoop env n body idx docs).entries[body.entries.length + i]? =
        some ⟨d.doc_id, d.rev, _encrypt_doc env d, g, t, n, idx + i⟩ := by
  intro docs
  induction docs with
  | nil => intro body idx i d g t h; simp at h
  | cons item rest ih =>
      intro body idx i d g t h
      obtain ⟨doc, gen, trans_id⟩ := item
      rw [show entriesLoop env n body idx ((doc, gen, trans_id) :: rest) =
        entriesLoop env n (insert_info body
          ⟨doc.doc_id, doc.rev, _encrypt_doc env doc, gen, trans_id,
            n, idx⟩) (idx + 1) rest from rfl]
      cases i with
      | zero =>
          simp only [List.getElem?_cons_zero, Option.some.injEq,
            Prod.mk.injEq] at h
          obtain ⟨hd, hg, ht⟩ := h
          subst hd; subst hg; subst ht
          obtain ⟨tail, htail⟩ := entriesLoop_entries_app env n rest
            (insert_info body
              ⟨doc.doc_id, doc.rev, _encrypt_doc env doc, gen, trans_id,
                n, idx⟩) (idx + 1)
          rw [htail]
          simp only [insert_info, List.append_assoc, Nat.add_zero]
          rw [List.getElem?_append_right (Nat.le_refl _)]
          simp
      | succ j =>
          simp only [List.getElem?_cons_succ] at h
          have hx := ih (insert_info body
            ⟨doc.doc_id, doc.rev, _encrypt_doc env doc, gen, trans_id,
              n, idx⟩) (idx + 1) j d g t h
          rw [show body.entries.length + (j + 1) =
            (insert_info body
              ⟨doc.doc_id, doc.rev, _encrypt_doc env doc, gen, trans_id,
                n, idx⟩).entries.length + j by
              simp [insert_info]; omega]
          rw [show idx + (j + 1) = idx + 1 + j by omega]
          exact hx

/-- C7: the batch built by _entries_from_docs has one entry per document,
in input order; the entry at position i records that document's doc_id,
rev, resolved ciphertext (None exactly for tombstones), generation,
transaction id, 1-based index i + 1 and the total document count. -/
theorem entries_from_docs_batch_spec (env : SenderEnv) (lkg : Int)
    (lktid sid : String) (docs : List SyncItem) :
    (_entries_from_docs env ⟨lkg, lktid, sid, env.ensure, []⟩
        docs).entries.length = docs.length ∧
    (∀ (i : Nat) (d : Doc) (g : Int) (t : String),
      docs[i]? = some (d, g, t) →
      (_entries_from_docs env ⟨lkg, lktid, sid, env.ensure, []⟩
          docs).entries[i]? =
        some ⟨d.doc_id, d.rev, _encrypt_doc env d, g, t,
          docs.length, i + 1⟩) ∧
    (∀ d : Doc, _encrypt_doc env d = none ↔ d.is_tombstone = true) := by
  refine ⟨?_, ?_, ?_⟩
  · rw [_entries_from_docs, entriesLoop_length]
    simp
  · intro i d g t h
    have := entriesLoop_getElem env docs.length docs
      ⟨lkg, lktid, sid, env.ensure, []⟩ 1 i d g t h
    simpa [_entries_from_docs, Nat.add_comm] using this
  · intro d
    cases hts : d.is_tombstone with
    | false =>
        cases henc : env.defer_encryption with
        | false => simp [_encrypt_doc, hts, henc]
        | true =>
            cases hst : env.staged d.doc_id d.rev with
            | none => simp [_encrypt_doc, hts, henc, hst]
            | some j => simp [_encrypt_doc, hts, henc, hst]
    | true => simp [_encrypt_doc, hts]

/-- Witness for C7 at a two-document list (one staged, one tombstone). -/
theorem entries_from_docs_batch_spec_witness :
    (_entries_from_docs
        ⟨"u", false, true, (fun d => d.doc_id ++ "!"),
          (fun i r => if i = "d1" then some (r ++ "-staged") else none)⟩
        ⟨3, "lk", "sid", false, []⟩
        [(⟨"d1", "r1", some "c1"⟩, 4, "t1"),
         (⟨"d2", "r2", none⟩, 5, "t2")]).entries[0]? =
      some ⟨"d1", "r1", some "r1-staged", 4, "t1", 2, 1⟩ ∧
    (_entries_from_docs
        ⟨"u", false, true, (fun d => d.doc_id ++ "!"),
          (fun i r => if i = "d1" then some (r ++ "-staged") else none)⟩
        ⟨3, "lk", "sid", false, []⟩
        [(⟨"d1", "r1", some "c1"⟩, 4, "t1"),
         (⟨"d2", "r2", none⟩, 5, "t2")]).entries[1]? =
      some ⟨"d2", "r2", none, 5, "t2", 2, 2⟩ := by
  constructor
  · have := (entries_from_docs_batch_spec
      ⟨"u", false, true, (fun d => d.doc_id ++ "!"),
        (fun i r => if i = "d1" then some (r ++ "-staged") else none)⟩
      3 "lk" "sid"
      [(⟨"d1", "r1", some "c1"⟩, 4, "t1"),
       (⟨"d2", "r2", none⟩, 5, "t2")]).2.1 0 ⟨"d1", "r1", some "c1"⟩ 4 "t1"
      rfl
    simpa using this
  · have := (entries_from_docs_batch_spec
      ⟨"u", false, true, (fun d => d.doc_id ++ "!"),
        (fun i r => if i = "d1" then some (r ++ "-staged") else none)⟩
      3 "lk" "sid"
      [(⟨"d1", "r1", some "c1"⟩, 4, "t1"),
       (⟨"d2", "r2", none⟩, 5, "t2")]).2.1 1 ⟨"d2", "r2", none⟩ 5 "t2"
      rfl
    simpa using this

/-- Helper: when every chunk request of the remaining entries gets a
successful response, the send loop issues one POST per entry, deletes (in
deferred mode) the staged keys of the documents those chunks carried,
emits one progress message per chunk, and returns the last response. -/
theorem sendLoop_ok (server : Nat → Except Failure JVal)
    (docs : List SyncItem) (url : String) (defer_enc : Bool) :
    ∀ (entries : List SyncEntry) (k : Nat) (tr : SendTrace) (v : JVal),
      entries ≠ [] →
      entries.length ≤ docs.length →
      (∀ j, j < entries.length → ∃ w, server (k + j) = .ok w) →
      server (k + entries.length - 1) = .ok v →
      sendLoop server docs url docs.length defer_enc entries k tr =
        ({ requests := tr.requests ++ entries.map (chunkReq url),
           deleted := tr.deleted ++
             (if defer_enc then
               (docs.drop (docs.length - entries.length)).map keyOf
              else []),
           events := tr.events ++
             (List.range entries.length).map
               (fun j => statusMsg (docs.length - entries.length + j + 1)
                 docs.length) },
         Except.ok v) := by
  intro entries
  induction entries with
  | nil => intro k tr v hne; exact absurd rfl hne
  | cons e rest ih =>
      intro k tr v _ hlen hok hv
      simp only [List.length_cons] at hlen hok hv ⊢
      have hL1 : rest.length + 1 ≤ docs.length := hlen
      obtain ⟨w, hw⟩ := hok 0 (by omega)
      rw [Nat.add_zero] at hw
      simp only [sendLoop, hw, _http_request_result]
      cases defer_enc with
      | true =>
          simp only [reduceIte]
          have hlt : docs.length - (rest.length + 1) < docs.length := by
            omega
          have hdl : _delete_sent (docs.length - rest.length) docs =
              some (keyOf docs[docs.length - (rest.length + 1)]) := by
            rw [_delete_sent,
              show docs.length - rest.length - 1 =
                docs.length - (rest.length + 1) by omega,
              List.getElem?_eq_getElem hlt]
            rfl
          rw [hdl]
          cases rest with
          | nil =>
              simp only [List.length_cons, List.length_nil, Nat.add_zero]
                at hv hlt hdl ⊢
              rw [show k + 1 - 1 = k from rfl] at hv
              have hwv : w = v := Except.ok.inj (hw.symm.trans hv)
              subst hwv
              simp only [Prod.mk.injEq, SendTrace.mk.injEq, reduceIte]
              refine ⟨⟨by simp, ?_, ?_⟩, trivial⟩
              · rw [List.drop_eq_getElem_cons hlt,
                  show docs.length - (0 + 1) + 1 = docs.length by omega,
                  List.drop_length]
                simp only [List.map_cons, List.map_nil]
              · simp only [show List.range (0 + 1) = [0] from rfl,
                  List.map_cons, List.map_nil]
                rw [show docs.length - (0 + 1) + 0 + 1 = docs.length - 0
                  by omega]
          | cons r rs =>
              simp only [List.length_cons] at hv hok hlen hlt hdl ⊢
              rw [ih (k + 1)
                ⟨tr.requests ++ [chunkReq url e],
                 tr.deleted ++
                   [keyOf docs[docs.length - (rs.length + 1 + 1)]],
                 tr.events ++
                   [statusMsg (docs.length - (rs.length + 1)) docs.length]⟩
                v (by simp)
                (by simp only [List.length_cons]; omega)
                (by
                  intro j hj
                  obtain ⟨w2, hw2⟩ := hok (j + 1) (by
                    simp only [List.length_cons] at hj ⊢; omega)
                  refine ⟨w2, ?_⟩
                  rw [show k + 1 + j = k + (j + 1) by omega]
                  exact hw2)
                (by
                  simp only [List.length_cons]
                  rw [show k + 1 + (rs.length + 1) - 1 =
                    k + (rs.length + 1 + 1) - 1 by omega]
                  exact hv)]
              simp only [Prod.mk.injEq, SendTrace.mk.injEq, reduceIte,
                List.length_cons]
              refine ⟨⟨by simp, ?_, ?_⟩, trivial⟩
              · rw [List.drop_eq_getElem_cons
                  (show docs.length - (rs.length + 1 + 1) < docs.length by
                    omega)]
                rw [show docs.length - (rs.length + 1 + 1) + 1 =
                  docs.length - (rs.length + 1) by omega]
                simp [List.append_assoc]
              · rw [List.range_succ_eq_map (rs.length + 1), List.map_cons,
                  List.map_map, List.append_assoc]
                congr 1
                rw [List.singleton_append]
                congr 1
                · show statusMsg (docs.length - (rs.length + 1))
                      docs.length =
                    statusMsg (docs.length - (rs.length + 1 + 1) + 0 + 1)
                      docs.length
                  rw [show docs.length - (rs.length + 1 + 1) + 0 + 1 =
                    docs.length - (rs.length + 1) by omega]
                · apply List.map_congr_left
                  intro j hj
                  show statusMsg (docs.length - (rs.length + 1) + j + 1)
                      docs.length =
                    statusMsg
                      (docs.length - (rs.length + 1 + 1) + (j + 1) + 1)
                      docs.length
                  rw [show docs.length - (rs.length + 1 + 1) + (j + 1) + 1 =
                    docs.length - (rs.length + 1) + j + 1 by omega]
      | false =>
          simp only [Bool.false_eq_true, if_false]
          cases rest with
          | nil =>
              simp only [List.length_cons, List.length_nil, Nat.add_zero]
                at hv ⊢
              rw [show k + 1 - 1 = k from rfl] at hv
              have hwv : w = v := Except.ok.inj (hw.symm.trans hv)
              subst hwv
              simp only [Prod.mk.injEq, SendTrace.mk.injEq]
              refine ⟨⟨by simp, by simp, ?_⟩, trivial⟩
              simp only [show List.range (0 + 1) = [0] from rfl,
                List.map_cons, List.map_nil]
              rw [show docs.length - (0 + 1) + 0 + 1 = docs.length - 0
                by omega]
          | cons r rs =>
              simp only [List.length_cons] at hv hok hlen ⊢
              rw [ih (k + 1)
                ⟨tr.requests ++ [chunkReq url e], tr.deleted,
                 tr.events ++
                   [statusMsg (docs.length - (rs.length + 1)) docs.length]⟩
                v (by simp)
                (by simp only [List.length_cons]; omega)
                (by
                  intro j hj
                  obtain ⟨w2, hw2⟩ := hok (j + 1) (by
                    simp only [List.length_cons] at hj ⊢; omega)
                  refine ⟨w2, ?_⟩
                  rw [show k + 1 + j = k + (j + 1) by omega]
                  exact hw2)
                (by
                  simp only [List.length_cons]
                  rw [show k + 1 + (rs.length + 1) - 1 =
                    k + (rs.length + 1 + 1) - 1 by omega]
                  exact hv)]
              simp only [Prod.mk.injEq, SendTrace.mk.injEq,
                Bool.false_eq_true, if_false, List.length_cons]
              refine ⟨⟨by simp, by simp, ?_⟩, trivial⟩
              rw [List.range_succ_eq_map (rs.length + 1), List.map_cons,
                List.map_map, List.append_assoc]
              congr 1
              rw [List.singleton_append]
              congr 1
              · show statusMsg (docs.length - (rs.length + 1))
                    docs.length =
                  statusMsg (docs.length - (rs.length + 1 + 1) + 0 + 1)
                    docs.length
                rw [show docs.length - (rs.length + 1 + 1) + 0 + 1 =
                  docs.length - (rs.length + 1) by omega]
              · apply List.map_congr_left
                intro j hj
                show statusMsg (docs.length - (rs.length + 1) + j + 1)
                    docs.length =
                  statusMsg
                    (docs.length - (rs.length + 1 + 1) + (j + 1) + 1)
                    docs.length
                rw [show docs.length - (rs.length + 1 + 1) + (j + 1) + 1 =
                  docs.length - (rs.length + 1) + j + 1 by omega]

/-- Helper: when the first f chunk requests succeed and request f fails,
the send loop stops with that chunk's error after issuing f + 1 POSTs; in
deferred mode exactly the staged keys of the f acknowledged documents were
deleted, and f progress messages were emitted. -/
theorem sendLoop_fail (server : Nat → Except Failure JVal)
    (docs : List SyncItem) (url : String) (defer_enc : Bool) :
    ∀ (entries : List SyncEntry) (f k : Nat) (tr : SendTrace)
      (fl : Failure),
      f < entries.length →
      entries.length ≤ docs.length →
      (∀ j, j < f → ∃ w, server (k + j) = .ok w) →
      server (k + f) = .error fl →
      sendLoop server docs url docs.length defer_enc entries k tr =
        ({ requests := tr.requests ++
             (entries.take (f + 1)).map (chunkReq url),
           deleted := tr.deleted ++
             (if defer_enc then
               ((docs.drop (docs.length - entries.length)).take f).map keyOf
              else []),
           events := tr.events ++
             (List.range f).map
               (fun j => statusMsg (docs.length - entries.length + j + 1)
                 docs.length) },
         Except.error (SendError.http (k + f)
           (_unauth_to_invalid_token_error fl))) := by
  intro entries
  induction entries with
  | nil =>
      intro f k tr fl hf
      exact absurd hf (by simp)
  | cons e rest ih =>
      intro f k tr fl hf hlen hok herr
      simp only [List.length_cons] at hf hlen ⊢
      cases f with
      | zero =>
          rw [Nat.add_zero] at herr
          simp only [sendLoop, herr, _http_request_result]
          simp only [Prod.mk.injEq, SendTrace.mk.injEq]
          refine ⟨⟨?_, ?_, ?_⟩, by rw [Nat.add_zero]⟩
          · simp [List.take_succ_cons]
          · simp
          · simp
      | succ f' =>
          obtain ⟨w, hw⟩ := hok 0 (by omega)
          rw [Nat.add_zero] at hw
          simp only [sendLoop, hw, _http_request_result]
          cases defer_enc with
          | true =>
              simp only [reduceIte]
              have hlt : docs.length - (rest.length + 1) < docs.length := by
                omega
              have hdl : _delete_sent (docs.length - rest.length) docs =
                  some (keyOf docs[docs.length - (rest.length + 1)]) := by
                rw [_delete_sent,
                  show docs.length - rest.length - 1 =
                    docs.length - (rest.length + 1) by omega,
                  List.getElem?_eq_getElem hlt]
                rfl
              rw [hdl]
              cases rest with
              | nil =>
                  exact absurd hf (by simp only [List.length_nil]; omega)
              | cons r rs =>
                  simp only [List.length_cons] at hf hlen hlt hdl ⊢
                  rw [ih f' (k + 1)
                    ⟨tr.requests ++ [chunkReq url e],
                     tr.deleted ++
                       [keyOf docs[docs.length - (rs.length + 1 + 1)]],
                     tr.events ++
                       [statusMsg (docs.length - (rs.length + 1))
                         docs.length]⟩
                    fl (by simp only [List.length_cons]; omega)
                    (by simp only [List.length_cons]; omega)
                    (by
                      intro j hj
                      obtain ⟨w2, hw2⟩ := hok (j + 1) (by omega)
                      refine ⟨w2, ?_⟩
                      rw [show k + 1 + j = k + (j + 1) by omega]
                      exact hw2)
                    (by
                      rw [show k + 1 + f' = k + (f' + 1) by omega]
                      exact herr)]
                  simp only [Prod.mk.injEq, SendTrace.mk.injEq, reduceIte,
                    List.length_cons]
                  refine ⟨⟨?_, ?_, ?_⟩, ?_⟩
                  · simp [List.take_succ_cons]
                  · rw [List.drop_eq_getElem_cons
                      (show docs.length - (rs.length + 1 + 1) <
                        docs.length by omega)]
                    rw [show docs.length - (rs.length + 1 + 1) + 1 =
                      docs.length - (rs.length + 1) by omega,
                      List.take_succ_cons]
                    simp [List.append_assoc]
                  · rw [List.range_succ_eq_map f', List.map_cons,
                      List.map_map, List.append_assoc]
                    congr 1
                    rw [List.singleton_append]
                    congr 1
                    · show statusMsg (docs.length - (rs.length + 1))
                          docs.length =
                        statusMsg
                          (docs.length - (rs.length + 1 + 1) + 0 + 1)
                          docs.length
                      rw [show docs.length - (rs.length + 1 + 1) + 0 + 1 =
                        docs.length - (rs.length + 1) by omega]
                    · apply List.map_congr_left
                      intro j hj
                      show statusMsg
                          (docs.length - (rs.length + 1) + j + 1)
                          docs.length =
                        statusMsg
                          (docs.length - (rs.length + 1 + 1) + (j + 1) + 1)
                          docs.length
                      rw [show docs.length - (rs.length + 1 + 1) +
                        (j + 1) + 1 =
                        docs.length - (rs.length + 1) + j + 1 by omega]
                  · rw [show k + 1 + f' = k + (f' + 1) by omega]
          | false =>
              simp only [Bool.false_eq_true, if_false]
              cases rest with
              | nil =>
                  exact absurd hf (by simp only [List.length_nil]; omega)
              | cons r rs =>
                  simp only [List.length_cons] at hf hlen ⊢
                  rw [ih f' (k + 1)
                    ⟨tr.requests ++ [chunkReq url e], tr.deleted,
                     tr.events ++
                       [statusMsg (docs.length - (rs.length + 1))
                         docs.length]⟩
                    fl (by simp only [List.length_cons]; omega)
                    (by simp only [List.length_cons]; omega)
                    (by
                      intro j hj
                      obtain ⟨w2, hw2⟩ := hok (j + 1) (by omega)
                      refine ⟨w2, ?_⟩
                      rw [show k + 1 + j = k + (j + 1) by omega]
                      exact hw2)
                    (by
                      rw [show k + 1 + f' = k + (f' + 1) by omega]
                      exact herr)]
                  simp only [Prod.mk.injEq, SendTrace.mk.injEq,
                    Bool.false_eq_true, if_false, List.length_cons]
                  refine ⟨⟨?_, ?_, ?_⟩, ?_⟩
                  · simp [List.take_succ_cons]
                  · simp
                  · rw [List.range_succ_eq_map f', List.map_cons,
                      List.map_map, List.append_assoc]
                    congr 1
                    rw [List.singleton_append]
                    congr 1
                    · show statusMsg (docs.length - (rs.length + 1))
                          docs.length =
                        statusMsg
                          (docs.length - (rs.length + 1 + 1) + 0 + 1)
                          docs.length
                      rw [show docs.length - (rs.length + 1 + 1) + 0 + 1 =
                        docs.length - (rs.length + 1) by omega]
                    · apply List.map_congr_left
                      intro j hj
                      show statusMsg
                          (docs.length - (rs.length + 1) + j + 1)
                          docs.length =
                        statusMsg
                          (docs.length - (rs.length + 1 + 1) + (j + 1) + 1)
                          docs.length
                      rw [show docs.length - (rs.length + 1 + 1) +
                        (j + 1) + 1 =
                        docs.length - (rs.length + 1) + j + 1 by omega]
                  · rw [show k + 1 + f' = k + (f' + 1) by omega]

/-- C6: with deferred encryption on, after _send_docs ran with the first f
chunk responses successful (and, when f < N, chunk f failing), the deleted
staged keys are exactly those of the documents of the f acknowledged
chunks, in order: a staged entry is deleted exactly when its chunk got a
successful response and never before, and the staged entries of all
not-yet-acknowledged chunks remain undeleted. -/
theorem send_docs_staged_delete_iff_acked (server : Nat → Except Failure JVal)
    (env : SenderEnv) (docs : List SyncItem) (lkg : Int)
    (lktid sid : String) (f : Nat)
    (hne : docs ≠ [])
    (hdef : env.defer_encryption = true)
    (hf : f ≤ docs.length)
    (hok : ∀ j, j < f → ∃ w, server j = .ok w)
    (hfail : f < docs.length → ∃ fl, server f = .error fl) :
    (_send_docs server env docs lkg lktid sid).1.deleted =
      (docs.take f).map keyOf := by
  obtain ⟨d0, ds, rfl⟩ : ∃ d0 ds, docs = d0 :: ds := by
    cases docs with
    | nil => exact absurd rfl hne
    | cons a l => exact ⟨a, l, rfl⟩
  have hlen : (_entries_from_docs env
      ⟨lkg, lktid, sid, env.ensure, []⟩ (d0 :: ds)).entries.length =
      (d0 :: ds).length := by
    rw [_entries_from_docs, entriesLoop_length]
    simp
  rcases Nat.lt_or_ge f (d0 :: ds).length with hflt | hfge
  · obtain ⟨fl, hfl⟩ := hfail hflt
    have hrw := sendLoop_fail server (d0 :: ds) env.url true
      (_entries_from_docs env ⟨lkg, lktid, sid, env.ensure, []⟩
        (d0 :: ds)).entries f 0 emptyTrace fl
      (by rw [hlen]; exact hflt) (by rw [hlen])
      (by intro j hj; simpa using hok j hj) (by simpa using hfl)
    simp only [_send_docs, hrw, hdef]
    simp only [emptyTrace, reduceIte, List.nil_append, hlen,
      Nat.sub_self, List.drop_zero]
  · have hfeq : f = (d0 :: ds).length := Nat.le_antisymm hf hfge
    subst hfeq
    obtain ⟨v, hv⟩ := hok ((d0 :: ds).length - 1) (by simp)
    have hrw := sendLoop_ok server (d0 :: ds) env.url true
      (_entries_from_docs env ⟨lkg, lktid, sid, env.ensure, []⟩
        (d0 :: ds)).entries 0 emptyTrace v
      (by
        intro hcon
        have := congrArg List.length hcon
        rw [hlen] at this
        simp at this)
      (by rw [hlen])
      (by intro j hj; rw [hlen] at hj; simpa using hok j hj)
      (by rw [hlen]; simpa using hv)
    simp only [_send_docs, hrw, hdef]
    split
    all_goals
      simp only [emptyTrace, reduceIte, List.nil_append, hlen,
        Nat.sub_self, List.drop_zero, List.take_length]
    all_goals try split
    all_goals try split
    all_goals rfl

/-- Witness for C6: two documents, the first chunk accepted and the second
chunk failing, so only the first document's staged entry is deleted. -/
theorem send_docs_staged_delete_iff_acked_witness :
    (_send_docs
      (fun k => if k = 0 then Except.ok (JVal.jarr [])
        else Except.error (Failure.other "connection lost"))
      ⟨"u", false, true, (fun d => d.doc_id ++ "!"), (fun _ _ => none)⟩
      [(⟨"d1", "r1", some "c1"⟩, 4, "t1"),
       (⟨"d2", "r2", some "c2"⟩, 5, "t2")]
      3 "lk" "sid").1.deleted = [("d1", "r1")] := by
  have h := send_docs_staged_delete_iff_acked
    (fun k => if k = 0 then Except.ok (JVal.jarr [])
      else Except.error (Failure.other "connection lost"))
    ⟨"u", false, true, (fun d => d.doc_id ++ "!"), (fun _ _ => none)⟩
    [(⟨"d1", "r1", some "c1"⟩, 4, "t1"),
     (⟨"d2", "r2", some "c2"⟩, 5, "t2")]
    3 "lk" "sid" 1 (by simp) rfl (by simp)
    (by
      intro j hj
      have hj0 : j = 0 := by omega
      subst hj0
      exact ⟨JVal.jarr [], rfl⟩)
    (fun _ => ⟨Failure.other "connection lost", rfl⟩)
  simpa [keyOf] using h

/-- C1: for a non-empty list of N documents whose chunk requests all
succeed, _send_docs issues exactly ceil(N / chunk_size) POST requests
(the source drains one entry per request, so chunk_size is 1), and the
returned pair is the new_generation and new_transaction_id of the first
element of the JSON array decoded from the last chunk's response. -/
theorem send_docs_chunk_count_and_result
    (server : Nat → Except Failure JVal) (env : SenderEnv)
    (docs : List SyncItem) (lkg : Int) (lktid sid : String)
    (hne : docs ≠ [])
    (hok : ∀ j, j < docs.length → ∃ w, server j = .ok w)
    (fields : List (String × JVal)) (restElems : List JVal) (g t : JVal)
    (hlast : server (docs.length - 1) =
      .ok (JVal.jarr (JVal.jobj fields :: restElems)))
    (hg : jlookup fields "new_generation" = some g)
    (ht : jlookup fields "new_transaction_id" = some t) :
    (_send_docs server env docs lkg lktid sid).1.requests.length =
      (docs.length + chunk_size - 1) / chunk_size ∧
    (∀ r ∈ (_send_docs server env docs lkg lktid sid).1.requests,
      r.method = "POST") ∧
    (_send_docs server env docs lkg lktid sid).2 = Except.ok (g, t) := by
  obtain ⟨d0, ds, rfl⟩ : ∃ d0 ds, docs = d0 :: ds := by
    cases docs with
    | nil => exact absurd rfl hne
    | cons a l => exact ⟨a, l, rfl⟩
  have hlen : (_entries_from_docs env
      ⟨lkg, lktid, sid, env.ensure, []⟩ (d0 :: ds)).entries.length =
      (d0 :: ds).length := by
    rw [_entries_from_docs, entriesLoop_length]
    simp
  have hrw := sendLoop_ok server (d0 :: ds) env.url env.defer_encryption
    (_entries_from_docs env ⟨lkg, lktid, sid, env.ensure, []⟩
      (d0 :: ds)).entries 0 emptyTrace
    (JVal.jarr (JVal.jobj fields :: restElems))
    (by
      intro hcon
      have := congrArg List.length hcon
      rw [hlen] at this
      simp at this)
    (by rw [hlen])
    (by intro j hj; rw [hlen] at hj; simpa using hok j hj)
    (by rw [hlen]; simpa using hlast)
  simp only [_send_docs, hrw, hg, ht]
  refine ⟨?_, ?_, trivial⟩
  · simp only [emptyTrace, List.nil_append, List.length_map, hlen,
      chunk_size]
    omega
  · intro r hr
    simp only [emptyTrace, List.nil_append, List.mem_map] at hr
    obtain ⟨e, _, hre⟩ := hr
    rw [← hre]
    rfl

/-- Witness for C1: one document, its single chunk answered with a
one-element JSON array carrying new_generation 7 and new_transaction_id
T. -/
theorem send_docs_chunk_count_and_result_witness :
    (_send_docs
      (fun _ => Except.ok (JVal.jarr [JVal.jobj
        [("new_generation", JVal.jnum 7),
         ("new_transaction_id", JVal.jstr "T")]]))
      ⟨"u", false, false, (fun d => d.doc_id ++ "!"), (fun _ _ => none)⟩
      [(⟨"d1", "r1", some "c1"⟩, 4, "t1")]
      3 "lk" "sid").1.requests.length = 1 ∧
    (_send_docs
      (fun _ => Except.ok (JVal.jarr [JVal.jobj
        [("new_generation", JVal.jnum 7),
         ("new_transaction_id", JVal.jstr "T")]]))
      ⟨"u", false, false, (fun d => d.doc_id ++ "!"), (fun _ _ => none)⟩
      [(⟨"d1", "r1", some "c1"⟩, 4, "t1")]
      3 "lk" "sid").2 = Except.ok (JVal.jnum 7, JVal.jstr "T") := by
  have h := send_docs_chunk_count_and_result
    (fun _ => Except.ok (JVal.jarr [JVal.jobj
      [("new_generation", JVal.jnum 7),
       ("new_transaction_id", JVal.jstr "T")]]))
    ⟨"u", false, false, (fun d => d.doc_id ++ "!"), (fun _ _ => none)⟩
    [(⟨"d1", "r1", some "c1"⟩, 4, "t1")]
    3 "lk" "sid" (by simp)
    (fun j hj => ⟨JVal.jarr [JVal.jobj
      [("new_generation", JVal.jnum 7),
       ("new_transaction_id", JVal.jstr "T")]], rfl⟩)
    [("new_generation", JVal.jnum 7),
     ("new_transaction_id", JVal.jstr "T")] [] (JVal.jnum 7)
    (JVal.jstr "T") rfl rfl rfl
  exact ⟨by simpa [chunk_size] using h.1, h.2.2⟩

/-- C3: for the empty document list _send_docs returns [None, None] and
issues no HTTP request. -/
theorem send_docs_empty_no_request (server : Nat → Except Failure JVal)
    (env : SenderEnv) (lkg : Int) (lktid sid : String) :
    _send_docs server env [] lkg lktid sid =
      (emptyTrace, .ok (JVal.jnull, JVal.jnull)) ∧
    (_send_docs server env [] lkg lktid sid).1.requests = [] :=
  ⟨rfl, rfl⟩

end Soledad
